import Mathlib

/-!
Verification development for the deep-agents chat front-end.

We shallowly embed the client-side logic the specification describes:
the tool-call projection (`processedMessages` in
`CopyCreatorInterface.tsx`), the polling transport (`sendMessage` in
`useChatNoStreaming.ts`), the debounced auxiliary-state updates
(`debouncedTodosUpdate` in `useChat.ts`), and the thread-history listing
and grouping (`fetchThreads` / `extractFirstMessage` / `groupedThreads`
in the documentation file).

JavaScript values that the code inspects only for truthiness and
structure are modelled by `JVal`; absent object fields are `Option.none`;
JavaScript string truthiness (`""` is falsy) and array truthiness
(`[]` is truthy) are modelled explicitly where the code relies on them.
-/

namespace DeepAgentsUI

/-- A JavaScript value, as far as the embedded code inspects it:
only truthiness and structural equality matter for tool-call `args`. -/
inductive JVal where
  | str (s : String)
  | num (n : Int)
  | boolean (b : Bool)
  | null
  | arr (elems : List JVal)
  | obj (fields : List (String × JVal))


/-- JavaScript truthiness of a `JVal`: `""`, `0`, `false` and `null` are
falsy; every array and object (even empty) is truthy. -/
def JVal.truthy : JVal → Bool
  | .str s => s ≠ ""
  | .num n => n ≠ 0
  | .boolean b => b
  | .null => false
  | .arr _ => true
  | .obj _ => true

/-- The `function` sub-object of an OpenAI-style tool call
(`toolCall.function?.name`, `toolCall.function?.arguments`). -/
structure FnPart where
  name : Option String
  arguments : Option JVal


/-- A raw tool-call descriptor as it appears in any of the three source
shapes the projection reads: `additional_kwargs.tool_calls` entries,
`message.tool_calls` entries, or `tool_use` content blocks. Absent
fields are `none`. The `text` field is carried by `text` content
blocks, which share this record shape. -/
structure RawTC where
  id : Option String
  name : Option String
  type : Option String
  text : Option String
  input : Option JVal
  args : Option JVal
  function : Option FnPart


/-- A raw tool call with every optional field absent. -/
def RawTC.empty : RawTC :=
  { id := none, name := none, type := none, text := none,
    input := none, args := none, function := none }

/-- One element of an array-valued message `content`: either a bare
string or a block object. -/
inductive CItem where
  | cstr (s : String)
  | cobj (o : RawTC)


/-- Message `content`: a plain string or an ordered list of blocks. -/
inductive MContent where
  | str (s : String)
  | blocks (items : List CItem)


/-- A conversation message (`Message` from the langgraph SDK, restricted
to the fields the embedded code reads). `additionalKwargsToolCalls`
models `message.additional_kwargs?.tool_calls` and is `some l` exactly
when that field is present and is an array; likewise `toolCalls` models
`message.tool_calls`. `id` is a plain string because the projection
dereferences `message.id!`. -/
structure Message where
  id : String
  type : String
  content : MContent
  additionalKwargsToolCalls : Option (List RawTC)
  toolCalls : Option (List RawTC)
  toolCallId : Option String


/-- A human message as both hooks build it: fresh id, type `human`,
string content, no tool-call fields. -/
def mkHumanMessage (newId content : String) : Message :=
  { id := newId, type := "human", content := .str content,
    additionalKwargsToolCalls := none, toolCalls := none, toolCallId := none }

/-- JavaScript `s.slice(0, n)`: the first `n` characters of a string
(code-unit versus code-point differences are out of scope; the embedded
strings are plain ASCII). -/
def jsSlice (s : String) (n : Nat) : String :=
  ⟨s.data.take n⟩

/-- The characters JavaScript `trim` removes at either end (restricted
to the common ASCII whitespace). -/
def jsWhitespace (c : Char) : Bool :=
  c = ' ' || c = '\t' || c = '\n' || c = '\r'

/-- JavaScript `s.trim()`: strip leading and trailing whitespace. -/
def jsTrim (s : String) : String :=
  ⟨(((s.data.dropWhile jsWhitespace).reverse.dropWhile jsWhitespace).reverse)⟩

/-- The text-bearing segments of array content: bare strings and blocks
with `type === "text"` (an absent `text` field contributes the empty
string, as `Array.prototype.join` renders `undefined`). -/
def textSegments (items : List CItem) : List String :=
  items.filterMap fun it =>
    match it with
    | .cstr s => some s
    | .cobj o => if o.type = some "text" then some (o.text.getD "") else none

/-- `extractStringFromMessageContent` from `utils`: string content is
returned as-is; array content joins its text-bearing segments with
single spaces and trims the result. -/
def extractStringFromMessageContent (m : Message) : String :=
  match m.content with
  | .str s => s
  | .blocks items => jsTrim (String.intercalate " " (textSegments items))

/-! ## Tool-call projection (`processedMessages` in `CopyCreatorInterface.tsx`) -/

/-- A derived tool-call view (`ToolCall` in the UI types): status starts
`pending` and may be flipped to `completed` with an attached result. -/
structure ToolCall where
  id : String
  name : String
  args : JVal
  status : String
  result : Option String

/-- JavaScript `||` on an optional string operand: keeps the first
operand when it is present and truthy (non-empty). -/
def jsOrStr (a : Option String) (b : Option String) : Option String :=
  match a with
  | some s => if s = "" then b else some s
  | none => b

/-- JavaScript `||` on an optional value operand with `JVal` truthiness. -/
def jsOrJVal (a : Option JVal) (b : Option JVal) : Option JVal :=
  match a with
  | some v => if v.truthy then some v else b
  | none => b

/-- The final step of a JavaScript `||` chain against a mandatory
default: the accumulated operand is kept only when present and truthy
(`"" || d` yields `d`). -/
def jsOrStrD (a : Option String) (d : String) : String :=
  match a with
  | some s => if s = "" then d else s
  | none => d

/-- The final step of a JavaScript `||` chain of values against a
mandatory default (`null || d` and `"" || d` yield `d`). -/
def jsOrJValD (a : Option JVal) (d : JVal) : JVal :=
  match a with
  | some v => if v.truthy then v else d
  | none => d

/-- Whether `toolCall.id` is truthy, i.e. present and non-empty: exactly
when the projection keeps it instead of generating a random fallback. -/
def RawTC.idTruthy (tc : RawTC) : Bool :=
  match tc.id with
  | some s => s ≠ ""
  | none => false

/-- The `name` computed for one descriptor:
`toolCall.function?.name || toolCall.name || toolCall.type || "unknown"`
(a `||` chain returns its last operand's value when every earlier one is
falsy, so an empty-string `type` still falls through to `"unknown"`). -/
def RawTC.viewName (tc : RawTC) : String :=
  jsOrStrD (jsOrStr (tc.function.bind FnPart.name) (jsOrStr tc.name tc.type))
    "unknown"

/-- The `args` computed for one descriptor:
`toolCall.function?.arguments || toolCall.args || toolCall.input || {}`. -/
def RawTC.viewArgs (tc : RawTC) : JVal :=
  jsOrJValD (jsOrJVal (tc.function.bind FnPart.arguments)
    (jsOrJVal tc.args tc.input)) (.obj [])

/-- Source selection inside `processedMessages`: the three shapes are
tried in order `additional_kwargs.tool_calls`, `message.tool_calls`
(dropping entries whose `name` is the empty string), then `tool_use`
content blocks; the first shape that is PRESENT as an array is used,
even when that array is empty (a JavaScript array is truthy). -/
def extractRawToolCalls (m : Message) : List RawTC :=
  match m.additionalKwargsToolCalls with
  | some l => l
  | none =>
    match m.toolCalls with
    | some l => l.filter fun tc => tc.name ≠ some ""
    | none =>
      match m.content with
      | .str _ => []
      | .blocks items =>
        items.filterMap fun it =>
          match it with
          | .cstr _ => none
          | .cobj o => if o.type = some "tool_use" then some o else none

/-- Normalize the extracted descriptors into pending `ToolCall` views.
The id fallback `toolCall.id || tool-...Math.random()` is modelled by a
generator `rng`: the `k`-th descriptor whose own id is falsy receives
`rng k`. The counter advances only when the generator is consulted,
mirroring the short-circuit evaluation of `||`. Returns the views and
the advanced counter. -/
def normalizeAll : List RawTC → (Nat → String) → Nat → List ToolCall × Nat
  | [], _, k => ([], k)
  | tc :: rest, rng, k =>
    if tc.idTruthy then
      let (tl, k') := normalizeAll rest rng k
      ({ id := tc.id.getD "", name := tc.viewName, args := tc.viewArgs,
         status := "pending", result := none } :: tl, k')
    else
      let (tl, k') := normalizeAll rest rng (k + 1)
      ({ id := rng k, name := tc.viewName, args := tc.viewArgs,
         status := "pending", result := none } :: tl, k')

/-- An entry of the projection's `messageMap`: the message plus its
derived tool-call views. -/
structure Entry where
  message : Message
  toolCalls : List ToolCall

/-- `Map.set`: replaces the value in place when the key exists (keeping
its original insertion position), otherwise appends. -/
def mapSet (m : List (String × Entry)) (key : String) (e : Entry) :
    List (String × Entry) :=
  if m.any (fun p => p.1 = key) then
    m.map fun p => if p.1 = key then (key, e) else p
  else m ++ [(key, e)]

/-- Replace the first view with the matching id by its completed form
(`findIndex` finds the first match; the entry is rebuilt with
`status: "completed"` and the extracted result). -/
def completeAt : List ToolCall → String → String → List ToolCall
  | [], _, _ => []
  | tc :: rest, cid, res =>
    if tc.id = cid then
      { tc with status := "completed", result := some res } :: rest
    else tc :: completeAt rest cid res

/-- Processing of one `tool` message: scan entries in insertion order,
complete the first matching view and stop (`break`); entries without a
match are left untouched. -/
def completeFirst : List (String × Entry) → String → String → List (String × Entry)
  | [], _, _ => []
  | (k, e) :: rest, cid, res =>
    if e.toolCalls.any (fun tc => tc.id = cid) then
      (k, { e with toolCalls := completeAt e.toolCalls cid res }) :: rest
    else (k, e) :: completeFirst rest cid res

/-- The `messages.forEach` loop of `processedMessages`: builds the
insertion-ordered `messageMap`. `ai` messages get an entry with their
normalized tool calls; `tool` messages with a truthy `tool_call_id`
complete the first matching pending view; `human` messages get an entry
with no tool calls; every other role is skipped. -/
def buildMap : List Message → (Nat → String) → Nat → List (String × Entry) →
    List (String × Entry)
  | [], _, _, acc => acc
  | m :: rest, rng, k, acc =>
    if m.type = "ai" then
      let (tcs, k') := normalizeAll (extractRawToolCalls m) rng k
      buildMap rest rng k' (mapSet acc m.id { message := m, toolCalls := tcs })
    else if m.type = "tool" then
      match m.toolCallId with
      | none => buildMap rest rng k acc
      | some cid =>
        if cid = "" then buildMap rest rng k acc
        else buildMap rest rng k (completeFirst acc cid (extractStringFromMessageContent m))
    else if m.type = "human" then
      buildMap rest rng k (mapSet acc m.id { message := m, toolCalls := [] })
    else buildMap rest rng k acc

/-- A finished projection entry, with the avatar flag. -/
structure PEntry where
  message : Message
  toolCalls : List ToolCall
  showAvatar : Bool

/-- The final `map` over `Array.from(messageMap.values())`: `showAvatar`
is true iff the entry's role differs from the previous entry's role
(the first entry compares against `undefined`, hence `true`). -/
def addAvatars : Option String → List Entry → List PEntry
  | _, [] => []
  | prev, e :: rest =>
    { message := e.message, toolCalls := e.toolCalls,
      showAvatar := match prev with
        | none => true
        | some t => e.message.type ≠ t } :: addAvatars (some e.message.type) rest

/-- `processedMessages`: the full projection of a message sequence,
parameterized by the random-id generator used for descriptors lacking
an id. -/
def processedMessages (msgs : List Message) (rng : Nat → String) : List PEntry :=
  addAvatars none ((buildMap msgs rng 0 []).map Prod.snd)

/-- The tool-call view ids of a map state. -/
def viewIdsOf (es : List (String × Entry)) : List String :=
  es.flatMap fun p => p.2.toolCalls.map ToolCall.id

/-- All tool-call view ids present in the map built from `msgs` (used to
state that a `tool` message's id is orphaned). -/
def viewIds (msgs : List Message) (rng : Nat → String) : List String :=
  viewIdsOf (buildMap msgs rng 0 [])

/-! ## Polling transport (`sendMessage` in `useChatNoStreaming.ts`) -/

/-- A task-list item (`TodoItem` in the UI types). -/
structure TodoItem where
  id : String
  content : String
  status : String

/-- The `values` document of a thread-state snapshot; each sub-document
may be absent (`threadState.values?.messages` etc.). In JavaScript an
array or object value is always truthy, so presence alone decides the
`if` guards. -/
structure StateValues where
  messages : Option (List Message)
  todos : Option (List TodoItem)
  files : Option (List (String × String))

/-- The response of `client.threads.getState`: its `values` field may be
absent. -/
structure ThreadStateResp where
  values : Option StateValues

/-- A remote failure carries an optional `message`
(`err.message || "Erro ao enviar mensagem"` treats an absent or empty
message the same way). -/
def errMsgOf (e : Option String) : String :=
  match e with
  | some m => if m = "" then "Erro ao enviar mensagem" else m
  | none => "Erro ao enviar mensagem"

/-- Outcomes of the four remote calls one `sendMessage` may issue. The
new-thread branch uses `wait` then `search`; the existing-thread branch
uses `create`, `join`, `getState`. -/
structure Remote where
  wait : Except (Option String) StateValues
  search : Except (Option String) (List String)
  create : Except (Option String) String
  join : Except (Option String) Unit
  getState : Except (Option String) ThreadStateResp

/-- The hook state `sendMessage` reads and writes: the message list, the
thread identity (`null` is `none`) and the surfaced error. -/
structure ChatState where
  messages : List Message
  threadId : Option String
  error : Option String

/-- Observable side effects of one `sendMessage` call, recorded for the
identity and callback claims: which creation path ran, what the aux
callbacks were given, whether and with what `setThreadId` was called,
and whether the `catch` branch was entered. -/
structure SendEffects where
  waitCalled : Bool
  createCalled : Bool
  todosDelivered : Option (List TodoItem)
  filesDelivered : Option (List (String × String))
  setThreadIdCalled : Option String
  failed : Bool

/-- JavaScript falsiness of the `threadId` prop (`!threadId`): `null` or
the empty string. -/
def jsFalsyTid (tid : Option String) : Bool :=
  match tid with
  | none => true
  | some s => s = ""

/-- `threads[0]?.thread_id || ""`: the id recovered from the listing
call after a wait-style creation. -/
def recoveredThreadId (threads : List String) : String :=
  match threads.head? with
  | some tid => if tid = "" then "" else tid
  | none => ""

/-- The `catch` branch: surface `err.message` (or the default text) and
filter the optimistic message out by its id. The thread identity is not
touched. -/
def sendFailure (st : ChatState) (msgs1 : List Message) (newId : String)
    (e : Option String) (waitCalled createCalled : Bool) : ChatState × SendEffects :=
  ({ messages := msgs1.filter fun m => m.id ≠ newId,
     threadId := st.threadId,
     error := some (errMsgOf e) },
   { waitCalled := waitCalled, createCalled := createCalled,
     todosDelivered := none, filesDelivered := none,
     setThreadIdCalled := none, failed := true })

/-- The tail of the `try` block after the remote round-trip succeeded:
replace the message list when the snapshot has one, feed `todos` and
`files` to their callbacks when present, and call `setThreadId` exactly
when the branch started without a thread and `finalThreadId` is truthy. -/
def sendSuccess (msgs1 : List Message) (tid0 : Option String)
    (vals : Option StateValues) (finalThreadId : String)
    (waitCalled createCalled : Bool) : ChatState × SendEffects :=
  let assigns := jsFalsyTid tid0 && finalThreadId ≠ ""
  ({ messages := match vals.bind StateValues.messages with
       | some ms => ms
       | none => msgs1,
     threadId := if assigns then some finalThreadId else tid0,
     error := none },
   { waitCalled := waitCalled, createCalled := createCalled,
     todosDelivered := vals.bind StateValues.todos,
     filesDelivered := vals.bind StateValues.files,
     setThreadIdCalled := if assigns then some finalThreadId else none,
     failed := false })

/-- `sendMessage` from `useChatNoStreaming`: append the optimistic human
message, then either create a thread with the wait-style call and
recover its id from a limit-1 listing (when `threadId` is falsy), or run
create-run → join → getState against the existing thread. Any remote
failure lands in the `catch` branch. -/
def sendMessage (st : ChatState) (newId content : String) (remote : Remote) :
    ChatState × SendEffects :=
  let humanMessage := mkHumanMessage newId content
  let msgs1 := st.messages ++ [humanMessage]
  if jsFalsyTid st.threadId then
    match remote.wait with
    | .error e => sendFailure st msgs1 newId e true false
    | .ok stateValues =>
      match remote.search with
      | .error e => sendFailure st msgs1 newId e true false
      | .ok threads =>
        sendSuccess msgs1 st.threadId (some stateValues)
          (recoveredThreadId threads) true false
    else
    match remote.create with
    | .error e => sendFailure st msgs1 newId e false true
    | .ok _runId =>
      match remote.join with
      | .error e => sendFailure st msgs1 newId e false true
      | .ok _ =>
        match remote.getState with
        | .error e => sendFailure st msgs1 newId e false true
        | .ok resp =>
          sendSuccess msgs1 st.threadId resp.values (st.threadId.getD "")
            false true

/-! ## Debounced aux updates (`debouncedTodosUpdate` in `useChat.ts`) -/

/-- Timed semantics of the clear-and-reschedule debouncer. Events are
`(time, value)` pairs in arrival order. A pending timer `(deadline, v)`
fires (delivering `v`) before handling an event at a time at or past the
deadline; an event arriving strictly before the deadline cancels the
timer (`clearTimeout`). Each event schedules its own value at
`time + 100`. A timer still pending after the last event eventually
fires. Returns the deliveries in order. -/
def debounceRun {α : Type} : List (Nat × α) → Option (Nat × α) → List α
  | [], none => []
  | [], some (_, v) => [v]
  | (t, v) :: rest, none => debounceRun rest (some (t + 100, v))
  | (t, v) :: rest, some (dl, pv) =>
    if dl ≤ t then pv :: debounceRun rest (some (t + 100, v))
    else debounceRun rest (some (t + 100, v))

/-- The deliveries produced by a burst of debounced update calls. -/
def debounceDeliveries {α : Type} (events : List (Nat × α)) : List α :=
  debounceRun events none

/-- A list of timed events all lies within one coalescing window of a
deadline: the first event arrives strictly before the deadline, and each
later event strictly before the 100ms deadline its predecessor set. -/
def withinWindow {α : Type} : Nat → List (Nat × α) → Bool
  | _, [] => true
  | dl, (t, _) :: rest => decide (t < dl) && withinWindow (t + 100) rest

/-! ## Thread history (`fetchThreads`, `extractFirstMessage`, `groupedThreads`) -/

/-- A thread summary for the history listing; times in epoch
milliseconds. -/
structure ThreadSummary where
  id : String
  title : String
  createdAt : Int
  updatedAt : Int

/-- The four recency buckets of the history sidebar. -/
structure GroupedThreads where
  today : List ThreadSummary
  yesterday : List ThreadSummary
  week : List ThreadSummary
  older : List ThreadSummary

/-- `Math.floor((now - updatedAt) / 86400000)`: the whole-day difference
used by the grouping (floor division, also for negative differences). -/
def daysDiff (now updatedAt : Int) : Int :=
  (now - updatedAt).fdiv 86400000

/-- One step of the grouping `reduce`: push the thread into the bucket
selected by its whole-day difference. -/
def pushThread (acc : GroupedThreads) (now : Int) (t : ThreadSummary) :
    GroupedThreads :=
  let days := daysDiff now t.updatedAt
  if days = 0 then { acc with today := acc.today ++ [t] }
  else if days = 1 then { acc with yesterday := acc.yesterday ++ [t] }
  else if days < 7 then { acc with week := acc.week ++ [t] }
  else { acc with older := acc.older ++ [t] }

/-- `groupedThreads`: the `reduce` over the listed threads, starting
from four empty buckets. -/
def groupedThreads (threads : List ThreadSummary) (now : Int) : GroupedThreads :=
  threads.foldl (fun acc t => pushThread acc now t) ⟨[], [], [], []⟩

/-- The `Thread <id-prefix>` fallback label (`thread.thread_id.slice(0, 8)`). -/
def fallbackLabel (tid : String) : String :=
  "Thread " ++ jsSlice tid 8

/-- Title derivation inside `fetchThreads` (the `useThreadHistory` hook):
string content of the first message is truncated to 50 characters; any
other shape of content, and the no-messages case, fall back to the
id-prefix label. -/
def titleFromFetchThreads (tid : String) (msgs : Option (List Message)) : String :=
  match msgs with
  | some (first :: _) =>
    match first.content with
    | .str s => jsSlice s 50
    | .blocks _ => fallbackLabel tid
  | _ => fallbackLabel tid

/-- `extractFirstMessage` (the standalone history helper): the extracted
text of the first message — untruncated — or the id-prefix label when
there are no messages. -/
def extractFirstMessage (tid : String) (msgs : Option (List Message)) : String :=
  match msgs with
  | some (first :: _) => extractStringFromMessageContent first
  | _ => fallbackLabel tid

/-! ## Grouping lemmas -/

theorem foldl_push_today (now : Int) (l : List ThreadSummary) :
    ∀ acc : GroupedThreads,
      (l.foldl (fun a t => pushThread a now t) acc).today =
        acc.today ++ l.filter fun t => daysDiff now t.updatedAt == 0 := by
  induction l with
  | nil => intro acc; simp
  | cons t rest ih =>
    intro acc
    rw [List.foldl_cons, ih, List.filter_cons]
    by_cases h0 : daysDiff now t.updatedAt = 0
    · simp [pushThread, h0]
    · by_cases h1 : daysDiff now t.updatedAt = 1
      · simp [pushThread, h0, h1]
      · by_cases h7 : daysDiff now t.updatedAt < 7
        · simp [pushThread, h0, h1, h7]
        · simp [pushThread, h0, h1, h7]

theorem foldl_push_yesterday (now : Int) (l : List ThreadSummary) :
    ∀ acc : GroupedThreads,
      (l.foldl (fun a t => pushThread a now t) acc).yesterday =
        acc.yesterday ++ l.filter fun t => daysDiff now t.updatedAt == 1 := by
  induction l with
  | nil => intro acc; simp
  | cons t rest ih =>
    intro acc
    rw [List.foldl_cons, ih, List.filter_cons]
    by_cases h0 : daysDiff now t.updatedAt = 0
    · simp [pushThread, h0]
    · by_cases h1 : daysDiff now t.updatedAt = 1
      · simp [pushThread, h0, h1]
      · by_cases h7 : daysDiff now t.updatedAt < 7
        · simp [pushThread, h0, h1, h7]
        · simp [pushThread, h0, h1, h7]

theorem foldl_push_week (now : Int) (l : List ThreadSummary) :
    ∀ acc : GroupedThreads,
      (l.foldl (fun a t => pushThread a now t) acc).week =
        acc.week ++ l.filter fun t =>
          !(daysDiff now t.updatedAt == 0) && !(daysDiff now t.updatedAt == 1) &&
            decide (daysDiff now t.updatedAt < 7) := by
  induction l with
  | nil => intro acc; simp
  | cons t rest ih =>
    intro acc
    rw [List.foldl_cons, ih, List.filter_cons]
    by_cases h0 : daysDiff now t.updatedAt = 0
    · simp [pushThread, h0]
    · by_cases h1 : daysDiff now t.updatedAt = 1
      · simp [pushThread, h0, h1]
      · by_cases h7 : daysDiff now t.updatedAt < 7
        · simp [pushThread, h0, h1, h7]
        · simp [pushThread, h0, h1, h7]

theorem foldl_push_older (now : Int) (l : List ThreadSummary) :
    ∀ acc : GroupedThreads,
      (l.foldl (fun a t => pushThread a now t) acc).older =
        acc.older ++ l.filter fun t =>
          !(daysDiff now t.updatedAt == 0) && !(daysDiff now t.updatedAt == 1) &&
            !(decide (daysDiff now t.updatedAt < 7)) := by
  induction l with
  | nil => intro acc; simp
  | cons t rest ih =>
    intro acc
    rw [List.foldl_cons, ih, List.filter_cons]
    by_cases h0 : daysDiff now t.updatedAt = 0
    · simp [pushThread, h0]
    · by_cases h1 : daysDiff now t.updatedAt = 1
      · simp [pushThread, h0, h1]
      · by_cases h7 : daysDiff now t.updatedAt < 7
        · simp [pushThread, h0, h1, h7]
        · simp [pushThread, h0, h1, h7]

/-- C7: history grouping assigns each thread by the whole-day difference
between `now` and its `updatedAt`: difference 0 puts it in `today`, 1 in
`yesterday`, 2 through 6 in `thisWeek`, and 7 or more in `older`. -/
theorem history_grouping_by_day_difference (threads : List ThreadSummary)
    (now : Int) (t : ThreadSummary) (ht : t ∈ threads) :
    (daysDiff now t.updatedAt = 0 → t ∈ (groupedThreads threads now).today) ∧
    (daysDiff now t.updatedAt = 1 → t ∈ (groupedThreads threads now).yesterday) ∧
    (2 ≤ daysDiff now t.updatedAt ∧ daysDiff now t.updatedAt ≤ 6 →
      t ∈ (groupedThreads threads now).week) ∧
    (7 ≤ daysDiff now t.updatedAt → t ∈ (groupedThreads threads now).older) := by
  unfold groupedThreads
  rw [foldl_push_today, foldl_push_yesterday, foldl_push_week, foldl_push_older]
  refine ⟨fun h0 => ?_, fun h1 => ?_, fun hw => ?_, fun ho => ?_⟩
  · simp [List.mem_filter, ht, h0]
  · simp [List.mem_filter, ht, h1]
  · have hne0 : daysDiff now t.updatedAt ≠ 0 := by omega
    have hne1 : daysDiff now t.updatedAt ≠ 1 := by omega
    have hlt : daysDiff now t.updatedAt < 7 := by omega
    simp [List.mem_filter, ht, hne0, hne1, hlt]
  · have hne0 : daysDiff now t.updatedAt ≠ 0 := by omega
    have hne1 : daysDiff now t.updatedAt ≠ 1 := by omega
    have hge : ¬ daysDiff now t.updatedAt < 7 := by omega
    simp [List.mem_filter, ht, hne0, hne1, hge]

/-- A sample thread summary (updated at epoch 0) used by the grouping
witness. -/
def sampleThread : ThreadSummary :=
  { id := "t1", title := "title", createdAt := 0, updatedAt := 0 }

/-- Witness for C7: a thread updated three days before `now` lands in the
`week` bucket. -/
theorem history_grouping_by_day_difference_witness :
    sampleThread ∈ (groupedThreads [sampleThread] 259200000).week :=
  (history_grouping_by_day_difference [sampleThread] 259200000
    sampleThread (List.mem_singleton.mpr rfl)).2.2.1 (by decide)

/-! ## Debounce lemmas -/

theorem debounceRun_pending_within {α : Type} (rest : List (Nat × α)) :
    ∀ (dl : Nat) (v : α), withinWindow dl rest = true →
      debounceRun rest (some (dl, v)) = [(rest.map Prod.snd).getLastD v] := by
  induction rest with
  | nil => intro dl v _; rfl
  | cons e rest2 ih =>
    intro dl v h
    obtain ⟨t, w⟩ := e
    simp only [withinWindow, Bool.and_eq_true, decide_eq_true_eq] at h
    have hlt : ¬ dl ≤ t := by omega
    simp only [debounceRun, hlt, if_false, List.map_cons, List.getLastD_cons]
    exact ih (t + 100) w h.2

/-- C6: a burst of debounced update calls that all fall within one
coalescing window (each event arrives strictly before the 100ms timer
set by its predecessor fires) produces exactly one delivery, and it
carries the value of the last event of the burst. -/
theorem debounce_single_delivery {α : Type} (t0 : Nat) (v0 : α)
    (rest : List (Nat × α)) (h : withinWindow (t0 + 100) rest = true) :
    debounceDeliveries ((t0, v0) :: rest) = [(rest.map Prod.snd).getLastD v0] := by
  unfold debounceDeliveries
  simp only [debounceRun]
  exact debounceRun_pending_within rest (t0 + 100) v0 h

/-- Witness for C6: five events fired 10ms apart produce the single
delivery of the fifth value. -/
theorem debounce_single_delivery_witness :
    debounceDeliveries [(0, 1), (10, 2), (20, 3), (30, 4), (40, 5)] = [5] := by
  have h := debounce_single_delivery 0 1 [(10, 2), (20, 3), (30, 4), (40, 5)]
    (by decide)
  simpa using h

/-! ## Polling transport lemmas -/

theorem rollback_filter (msgs : List Message) (newId content : String)
    (hfresh : newId ∉ msgs.map Message.id) :
    (msgs ++ [mkHumanMessage newId content]).filter
        (fun m => decide (m.id ≠ newId)) = msgs := by
  rw [List.filter_append]
  have h1 : msgs.filter (fun m => decide (m.id ≠ newId)) = msgs := by
    apply List.filter_eq_self.mpr
    intro m hm
    have : m.id ≠ newId := fun he => hfresh (he ▸ List.mem_map_of_mem Message.id hm)
    simpa using this
  have h2 : [mkHumanMessage newId content].filter
      (fun m => decide (m.id ≠ newId)) = [] := by
    simp [mkHumanMessage]
  rw [h1, h2, List.append_nil]

/-- C2: when the remote round-trip of a polling `sendMessage` fails — in
either the new-thread wait branch or the existing-thread
create/join/getState branch — the message list afterwards equals the
list present before the call (the optimistic human message is filtered
out by its freshly generated id), an error message is surfaced, and the
thread identity is unchanged. -/
theorem send_failure_rolls_back (st : ChatState) (newId content : String)
    (remote : Remote) (hfresh : newId ∉ st.messages.map Message.id)
    (hfail : (sendMessage st newId content remote).2.failed = true) :
    (sendMessage st newId content remote).1.messages = st.messages ∧
    (sendMessage st newId content remote).1.error.isSome = true ∧
    (sendMessage st newId content remote).1.threadId = st.threadId := by
  have hfilter := rollback_filter st.messages newId content hfresh
  unfold sendMessage at hfail ⊢
  by_cases ht : jsFalsyTid st.threadId
  · simp only [ht, if_true] at hfail ⊢
    cases hw : remote.wait with
    | error e => simp only [hw]; exact ⟨hfilter, rfl, rfl⟩
    | ok sv =>
      cases hs : remote.search with
      | error e => simp only [hw, hs]; exact ⟨hfilter, rfl, rfl⟩
      | ok l => simp [hw, hs, sendSuccess] at hfail
  · simp only [ht, if_false] at hfail ⊢
    cases hc : remote.create with
    | error e => simp only [hc]; exact ⟨hfilter, rfl, rfl⟩
    | ok runId =>
      cases hj : remote.join with
      | error e => simp only [hc, hj]; exact ⟨hfilter, rfl, rfl⟩
      | ok u =>
        cases hg : remote.getState with
        | error e => simp only [hc, hj, hg]; exact ⟨hfilter, rfl, rfl⟩
        | ok resp => simp [hc, hj, hg, sendSuccess] at hfail

/-- An initial hook state: no messages, no thread, no error. -/
def emptyChatState : ChatState :=
  { messages := [], threadId := none, error := none }

/-- A remote whose wait-style creation call fails with a message. -/
def remoteWaitFails : Remote :=
  { wait := .error (some "network down"), search := .ok [],
    create := .ok "run-1", join := .ok (), getState := .ok ⟨none⟩ }

/-- Witness for C2: a failing wait call rolls the optimistic message
back, surfaces an error and keeps the identity. -/
theorem send_failure_rolls_back_witness :
    (sendMessage emptyChatState "id-1" "hello" remoteWaitFails).1.messages = [] ∧
    (sendMessage emptyChatState "id-1" "hello" remoteWaitFails).1.error.isSome = true ∧
    (sendMessage emptyChatState "id-1" "hello" remoteWaitFails).1.threadId = none :=
  send_failure_rolls_back emptyChatState "id-1" "hello" remoteWaitFails
    (by simp [emptyChatState]) (by decide)

/-- C3: polling identity transitions. (1) A successful `sendMessage`
starting with no thread assigns the identity recovered by the limit-1
listing call, provided that listing yields a (necessarily non-empty)
thread id. (2) A `sendMessage` starting with an assigned identity takes
the create-run/join/getState path: the wait-style creation call is never
issued. -/
theorem polling_identity_transitions :
    (∀ (st : ChatState) (newId content : String) (remote : Remote)
        (sv : StateValues) (l : List String) (tid : String),
      st.threadId = none → remote.wait = .ok sv → remote.search = .ok l →
      l.head? = some tid → tid ≠ "" →
      (sendMessage st newId content remote).1.threadId = some tid) ∧
    (∀ (st : ChatState) (newId content : String) (remote : Remote) (tid : String),
      st.threadId = some tid → tid ≠ "" →
      (sendMessage st newId content remote).2.waitCalled = false ∧
      (sendMessage st newId content remote).2.createCalled = true) := by
  constructor
  · intro st newId content remote sv l tid h0 hw hs hh hne
    have ht : jsFalsyTid st.threadId = true := by simp [jsFalsyTid, h0]
    have hrec : recoveredThreadId l = tid := by
      simp [recoveredThreadId, hh, hne]
    simp [sendMessage, ht, hw, hs, sendSuccess, hrec, h0, jsFalsyTid, hne]
  · intro st newId content remote tid h0 hne
    have ht : jsFalsyTid st.threadId = false := by simp [jsFalsyTid, h0, hne]
    cases hc : remote.create with
    | error e => simp [sendMessage, ht, hc, sendFailure]
    | ok runId =>
      cases hj : remote.join with
      | error e => simp [sendMessage, ht, hc, hj, sendFailure]
      | ok u =>
        cases hg : remote.getState with
        | error e => simp [sendMessage, ht, hc, hj, hg, sendFailure]
        | ok resp => simp [sendMessage, ht, hc, hj, hg, sendSuccess]

/-- A snapshot with one ai answer following the sent human message. -/
def sampleSnapshot : StateValues :=
  { messages := [mkHumanMessage "id-1" "hello",
      { id := "ai-1", type := "ai", content := .str "hi!",
        additionalKwargsToolCalls := none, toolCalls := none, toolCallId := none }],
    todos := some [{ id := "td-1", content := "plan", status := "pending" }],
    files := some [("hook1.txt", "text")] }

/-- A remote where creation succeeds and the listing returns the new
thread id `abc123`. -/
def remoteNewThreadOk : Remote :=
  { wait := .ok sampleSnapshot, search := .ok ["abc123"],
    create := .ok "run-1", join := .ok (), getState := .ok ⟨none⟩ }

/-- A hook state already bound to thread `abc123`. -/
def assignedChatState : ChatState :=
  { messages := [], threadId := some "abc123", error := none }

/-- Witness for C3: the concrete new-thread send assigns `abc123`, and a
send against the assigned thread uses create-run, never wait. -/
theorem polling_identity_transitions_witness :
    (sendMessage emptyChatState "id-1" "hello" remoteNewThreadOk).1.threadId =
        some "abc123" ∧
    (sendMessage assignedChatState "id-2" "more" remoteNewThreadOk).2.waitCalled =
        false ∧
    (sendMessage assignedChatState "id-2" "more" remoteNewThreadOk).2.createCalled =
        true := by
  refine ⟨?_, ?_⟩
  · exact polling_identity_transitions.1 emptyChatState "id-1" "hello"
      remoteNewThreadOk sampleSnapshot ["abc123"] "abc123" rfl rfl rfl rfl
      (by decide)
  · exact polling_identity_transitions.2 assignedChatState "id-2" "more"
      remoteNewThreadOk "abc123" rfl (by decide)

/-- C9: in the new-thread branch, when the wait call succeeds but the
listing returns no threads, the recovered id is the empty string, the
identity stays `none` and `setThreadId` is never called — while the
message store, todos and files are still replaced from the snapshot. -/
theorem new_thread_empty_listing (st : ChatState) (newId content : String)
    (remote : Remote) (sv : StateValues) (ms : List Message)
    (ts : List TodoItem) (fs : List (String × String))
    (h0 : st.threadId = none) (hw : remote.wait = .ok sv)
    (hs : remote.search = .ok []) (hm : sv.messages = some ms)
    (htd : sv.todos = some ts) (hf : sv.files = some fs) :
    recoveredThreadId [] = "" ∧
    (sendMessage st newId content remote).1.threadId = none ∧
    (sendMessage st newId content remote).2.setThreadIdCalled = none ∧
    (sendMessage st newId content remote).1.messages = ms ∧
    (sendMessage st newId content remote).2.todosDelivered = some ts ∧
    (sendMessage st newId content remote).2.filesDelivered = some fs := by
  have ht : jsFalsyTid st.threadId = true := by simp [jsFalsyTid, h0]
  refine ⟨rfl, ?_⟩
  simp [sendMessage, ht, hw, hs, sendSuccess, recoveredThreadId, h0,
    jsFalsyTid, hm, htd, hf]

/-- The new-thread remote with an empty listing result. -/
def remoteEmptyListing : Remote :=
  { remoteNewThreadOk with search := .ok [] }

/-- Witness for C9: the concrete empty-listing send leaves identity
`none` while replacing messages, todos and files. -/
theorem new_thread_empty_listing_witness :
    recoveredThreadId [] = "" ∧
    (sendMessage emptyChatState "id-1" "hello" remoteEmptyListing).1.threadId = none ∧
    (sendMessage emptyChatState "id-1" "hello" remoteEmptyListing).2.setThreadIdCalled = none ∧
    (sendMessage emptyChatState "id-1" "hello" remoteEmptyListing).1.messages =
      (sampleSnapshot.messages).getD [] ∧
    (sendMessage emptyChatState "id-1" "hello" remoteEmptyListing).2.todosDelivered =
      sampleSnapshot.todos ∧
    (sendMessage emptyChatState "id-1" "hello" remoteEmptyListing).2.filesDelivered =
      sampleSnapshot.files :=
  new_thread_empty_listing emptyChatState "id-1" "hello" remoteEmptyListing
    sampleSnapshot ((sampleSnapshot.messages).getD [])
    [{ id := "td-1", content := "plan", status := "pending" }]
    [("hook1.txt", "text")] rfl rfl rfl rfl rfl rfl

/-! ## Thread-history title lemmas -/

/-- The title rule as the specification words it (for comparison with
the two listing implementations): string content of the first message
truncated to 50 characters; structured content replaced by the
concatenation of its text-bearing segments, truncated; the id-prefix
label when there are no messages. -/
def specClaimTitle (tid : String) (msgs : Option (List Message)) : String :=
  match msgs with
  | some (first :: _) =>
    match first.content with
    | .str s => jsSlice s 50
    | .blocks items => ((jsTrim (String.intercalate " " (textSegments items)))).take 50
  | _ => fallbackLabel tid

/-- A first message whose content is a structured sequence with one text
segment. -/
def blockFirstMessage : Message :=
  { id := "m-1", type := "human",
    content := .blocks [.cobj { RawTC.empty with type := some "text", text := some "hello" }],
    additionalKwargsToolCalls := none, toolCalls := none, toolCallId := none }

/-- A first message whose string content is 60 characters long. -/
def longFirstMessage : Message :=
  { id := "m-2", type := "human",
    content := .str "012345678901234567890123456789012345678901234567890123456789",
    additionalKwargsToolCalls := none, toolCalls := none, toolCallId := none }

set_option maxRecDepth 4000 in
/-- Counterexample for C8 as stated: the hook listing maps structured
content to the id-prefix fallback instead of the concatenated text
segments, and the standalone helper does not truncate string content to
50 characters. -/
theorem history_title_claim_counterexample :
    titleFromFetchThreads "abcdef1234" (some [blockFirstMessage]) ≠
      specClaimTitle "abcdef1234" (some [blockFirstMessage]) ∧
    extractFirstMessage "abcdef1234" (some [longFirstMessage]) ≠
      specClaimTitle "abcdef1234" (some [longFirstMessage]) := by
  constructor
  · decide
  · decide

/-- C8 (amended): the hook listing (`fetchThreads`) truncates string
content of the first message to 50 characters and uses the id-prefix
fallback both when there are no messages and when the content is a
structured sequence; the standalone helper (`extractFirstMessage`)
returns the first message's extracted text untruncated — the string
content as-is, or the space-joined, trimmed text-bearing segments of a
structured sequence — with the id-prefix fallback when there are no
messages. -/
theorem history_title_derivation (tid : String) (msgs : Option (List Message)) :
    (∀ (m : Message) (rest : List Message) (s : String),
      msgs = some (m :: rest) → m.content = .str s →
        titleFromFetchThreads tid msgs = jsSlice s 50 ∧
        extractFirstMessage tid msgs = s) ∧
    (∀ (m : Message) (rest : List Message) (items : List CItem),
      msgs = some (m :: rest) → m.content = .blocks items →
        titleFromFetchThreads tid msgs = fallbackLabel tid ∧
        extractFirstMessage tid msgs =
          jsTrim (String.intercalate " " (textSegments items))) ∧
    (msgs = none ∨ msgs = some [] →
      titleFromFetchThreads tid msgs = fallbackLabel tid ∧
      extractFirstMessage tid msgs = fallbackLabel tid) := by
  refine ⟨?_, ?_, ?_⟩
  · intro m rest s hm hc
    subst hm
    simp [titleFromFetchThreads, extractFirstMessage,
      extractStringFromMessageContent, hc]
  · intro m rest items hm hc
    subst hm
    simp [titleFromFetchThreads, extractFirstMessage,
      extractStringFromMessageContent, hc]
  · rintro (hm | hm) <;> subst hm <;>
      simp [titleFromFetchThreads, extractFirstMessage]

/-- Witness for the amended C8: for a 60-character string first message
the hook listing truncates to 50 characters while the helper keeps the
whole string. -/
theorem history_title_derivation_witness :
    titleFromFetchThreads "abcdef1234" (some [longFirstMessage]) =
      "01234567890123456789012345678901234567890123456789" ∧
    extractFirstMessage "abcdef1234" (some [longFirstMessage]) =
      "012345678901234567890123456789012345678901234567890123456789" := by
  have h := (history_title_derivation "abcdef1234" (some [longFirstMessage])).1
    longFirstMessage [] "012345678901234567890123456789012345678901234567890123456789"
    rfl rfl
  simpa using h

/-! ## Projection lemmas -/

theorem completeFirst_no_match (cid res : String) :
    ∀ acc : List (String × Entry), cid ∉ viewIdsOf acc →
      completeFirst acc cid res = acc := by
  intro acc
  induction acc with
  | nil => intro _; rfl
  | cons p rest ih =>
    intro h
    obtain ⟨key, e⟩ := p
    have hids : cid ∉ e.toolCalls.map ToolCall.id ∧ cid ∉ viewIdsOf rest := by
      constructor <;> intro hc <;> apply h
      · exact List.mem_flatMap.mpr ⟨(key, e), List.mem_cons_self _ _, hc⟩
      · rcases List.mem_flatMap.mp hc with ⟨q, hq, hq2⟩
        exact List.mem_flatMap.mpr ⟨q, List.mem_cons_of_mem _ hq, hq2⟩
    have hany : e.toolCalls.any (fun tc => tc.id = cid) = false := by
      rw [List.any_eq_false]
      intro tc htc
      simp only [decide_eq_true_eq]
      intro he
      exact hids.1 (he ▸ List.mem_map_of_mem ToolCall.id htc)
    simp only [completeFirst, hany, Bool.false_eq_true, if_false]
    rw [ih hids.2]

theorem buildMap_append_noop (tm : Message) (P : List (String × Entry) → Prop)
    (hbase : ∀ (rng : Nat → String) (k : Nat) (acc : List (String × Entry)),
      P acc → buildMap [tm] rng k acc = acc) :
    ∀ (l : List Message) (rng : Nat → String) (k : Nat)
      (acc : List (String × Entry)),
      P (buildMap l rng k acc) →
        buildMap (l ++ [tm]) rng k acc = buildMap l rng k acc := by
  intro l
  induction l with
  | nil => intro rng k acc h; exact hbase rng k acc h
  | cons m rest ih =>
    intro rng k acc h
    by_cases hai : m.type = "ai"
    · simp only [List.cons_append, buildMap, hai, if_true] at h ⊢
      exact ih rng _ _ h
    · by_cases htool : m.type = "tool"
      · cases hcid : m.toolCallId with
        | none =>
          simp only [List.cons_append, buildMap, hai, if_false, htool, if_true,
            hcid] at h ⊢
          exact ih rng k acc h
        | some cid =>
          by_cases hemp : cid = ""
          · simp only [List.cons_append, buildMap, hai, if_false, htool,
              if_true, hcid, hemp, if_true] at h ⊢
            exact ih rng k acc h
          · simp only [List.cons_append, buildMap, hai, if_false, htool,
              if_true, hcid, hemp, if_false] at h ⊢
            exact ih rng k _ h
      · by_cases hhum : m.type = "human"
        · simp only [List.cons_append, buildMap, hai, if_false, htool,
            if_false, hhum, if_true] at h ⊢
          exact ih rng k _ h
        · simp only [List.cons_append, buildMap, hai, if_false, htool,
            if_false, hhum, if_false] at h ⊢
          exact ih rng k acc h

/-- C5: a `tool` message whose `toolCallId` matches no tool-call view
derived from the earlier messages leaves the projection unchanged:
every existing view keeps its id, name, args, status and result, and no
new entry is created. (The projection is a pure function of the message
list, so the message store itself — the input list — is untouched by
construction.) -/
theorem orphan_tool_result_preserves_projection (msgs : List Message)
    (rng : Nat → String) (tm : Message) (cid : String)
    (htool : tm.type = "tool") (hcid : tm.toolCallId = some cid)
    (horphan : cid ∉ viewIds msgs rng) :
    processedMessages (msgs ++ [tm]) rng = processedMessages msgs rng := by
  have htne : tm.type ≠ "ai" := by rw [htool]; decide
  have hmap := buildMap_append_noop tm (fun acc => cid ∉ viewIdsOf acc) ?_ msgs
    rng 0 [] horphan
  · unfold processedMessages
    rw [hmap]
  · intro rng' k acc hP
    by_cases hemp : cid = ""
    · simp [buildMap, htool, hcid, hemp]
    · have hcf := completeFirst_no_match cid (extractStringFromMessageContent tm) acc hP
      simp [buildMap, htool, hcid, hemp, hcf]

/-- A structured tool call with id `call1`. -/
def sampleRawToolCall : RawTC :=
  { RawTC.empty with
    id := some "call1"
    name := some "search"
    args := some (.obj [("query", .str "x")]) }

/-- An ai message carrying one structured tool call with id `call1`. -/
def aiToolCallMessage : Message :=
  { id := "ai-1", type := "ai", content := .str "",
    additionalKwargsToolCalls := none,
    toolCalls := some [sampleRawToolCall],
    toolCallId := none }

/-- A tool message answering tool-call id `cid`. -/
def toolResultMessage (cid : String) : Message :=
  { id := "tool-1", type := "tool", content := .str "result!",
    additionalKwargsToolCalls := none, toolCalls := none,
    toolCallId := some cid }

/-- A fixed fallback-id generator for concrete projection runs. -/
def rngR (k : Nat) : String :=
  "tool-" ++ toString k

/-- Witness for C5: a tool result for the unknown id `nomatch` leaves
the projection of one ai message unchanged. -/
theorem orphan_tool_result_preserves_projection_witness :
    processedMessages [aiToolCallMessage, toolResultMessage "nomatch"] rngR =
      processedMessages [aiToolCallMessage] rngR :=
  orphan_tool_result_preserves_projection [aiToolCallMessage] rngR
    (toolResultMessage "nomatch") "nomatch" rfl rfl (by decide)

theorem mem_mapSet (acc : List (String × Entry)) (key : String) (e : Entry)
    (p : String × Entry) (hp : p ∈ mapSet acc key e) :
    p ∈ acc ∨ p = (key, e) := by
  unfold mapSet at hp
  by_cases hk : acc.any (fun q => q.1 = key)
  · rw [if_pos hk] at hp
    rcases List.mem_map.mp hp with ⟨q, hq, hqe⟩
    by_cases hq1 : q.1 = key
    · right; rw [if_pos hq1] at hqe; exact hqe.symm
    · left; rw [if_neg hq1] at hqe; exact hqe ▸ hq
  · rw [if_neg hk] at hp
    rcases List.mem_append.mp hp with h | h
    · exact Or.inl h
    · exact Or.inr (List.mem_singleton.mp h)

theorem completeFirst_message_mem (cid res : String) :
    ∀ (acc : List (String × Entry)) (p : String × Entry),
      p ∈ completeFirst acc cid res → ∃ q ∈ acc, p.2.message = q.2.message := by
  intro acc
  induction acc with
  | nil => intro p hp; cases hp
  | cons q rest ih =>
    intro p hp
    obtain ⟨key, e⟩ := q
    unfold completeFirst at hp
    by_cases hany : e.toolCalls.any (fun tc => tc.id = cid)
    · rw [if_pos hany] at hp
      rcases List.mem_cons.mp hp with h | h
      · exact ⟨(key, e), List.mem_cons_self _ _, by rw [h]⟩
      · exact ⟨p, List.mem_cons_of_mem _ h, rfl⟩
    · rw [if_neg hany] at hp
      rcases List.mem_cons.mp hp with h | h
      · exact ⟨(key, e), List.mem_cons_self _ _, by rw [h]⟩
      · rcases ih p h with ⟨q', hq', he⟩
        exact ⟨q', List.mem_cons_of_mem _ hq', he⟩

theorem buildMap_roles (l : List Message) (rng : Nat → String) :
    ∀ (k : Nat) (acc : List (String × Entry)),
      (∀ p ∈ acc, p.2.message.type = "ai" ∨ p.2.message.type = "human") →
      ∀ p ∈ buildMap l rng k acc,
        p.2.message.type = "ai" ∨ p.2.message.type = "human" := by
  induction l with
  | nil => intro k acc hacc p hp; exact hacc p hp
  | cons m rest ih =>
    intro k acc hacc p hp
    by_cases hai : m.type = "ai"
    · simp only [buildMap, hai, if_true] at hp
      refine ih _ _ ?_ p hp
      intro q hq
      rcases mem_mapSet _ _ _ q hq with h | h
      · exact hacc q h
      · rw [h]; exact Or.inl hai
    · by_cases htool : m.type = "tool"
      · cases hcid : m.toolCallId with
        | none =>
          simp only [buildMap, hai, if_false, htool, if_true, hcid] at hp
          exact ih k acc hacc p hp
        | some cid =>
          by_cases hemp : cid = ""
          · simp only [buildMap, hai, if_false, htool, if_true, hcid, hemp,
              if_true] at hp
            exact ih k acc hacc p hp
          · simp only [buildMap, hai, if_false, htool, if_true, hcid, hemp,
              if_false] at hp
            refine ih k _ ?_ p hp
            intro q hq
            rcases completeFirst_message_mem _ _ acc q hq with ⟨q', hq', he⟩
            rcases hacc q' hq' with h | h
            · exact Or.inl (he ▸ h)
            · exact Or.inr (he ▸ h)
      · by_cases hhum : m.type = "human"
        · simp only [buildMap, hai, if_false, htool, if_false, hhum,
            if_true] at hp
          refine ih k _ ?_ p hp
          intro q hq
          rcases mem_mapSet _ _ _ q hq with h | h
          · exact hacc q h
          · rw [h]; exact Or.inr hhum
        · simp only [buildMap, hai, if_false, htool, if_false, hhum,
            if_false] at hp
          exact ih k acc hacc p hp

theorem addAvatars_message_mem (l : List Entry) :
    ∀ (prev : Option String) (p : PEntry), p ∈ addAvatars prev l →
      ∃ e ∈ l, p.message = e.message := by
  induction l with
  | nil => intro prev p hp; cases hp
  | cons e rest ih =>
    intro prev p hp
    simp only [addAvatars] at hp
    rcases List.mem_cons.mp hp with h | h
    · exact ⟨e, List.mem_cons_self _ _, by rw [h]⟩
    · rcases ih _ p h with ⟨e', he', hm⟩
      exact ⟨e', List.mem_cons_of_mem _ he', hm⟩

/-- C10: the projection produces entries only for `ai` and `human`
messages. (1) Every entry of the projected sequence carries a message
whose role is `ai` or `human`. (2) Appending a message of any other
role — `system`, for instance — leaves the projection unchanged, while
the message itself stays in the input store (the projection never
mutates its input). -/
theorem projection_only_ai_human_entries :
    (∀ (msgs : List Message) (rng : Nat → String) (p : PEntry),
      p ∈ processedMessages msgs rng →
        p.message.type = "ai" ∨ p.message.type = "human") ∧
    (∀ (msgs : List Message) (rng : Nat → String) (m : Message),
      m.type ≠ "ai" → m.type ≠ "tool" → m.type ≠ "human" →
        processedMessages (msgs ++ [m]) rng = processedMessages msgs rng) := by
  constructor
  · intro msgs rng p hp
    unfold processedMessages at hp
    rcases addAvatars_message_mem _ _ p hp with ⟨e, he, hm⟩
    rcases List.mem_map.mp he with ⟨q, hq, hqe⟩
    have := buildMap_roles msgs rng 0 [] (by intro r hr; cases hr) q hq
    rw [hm, ← hqe] at *
    exact this
  · intro msgs rng m hai htool hhum
    have hmap := buildMap_append_noop m (fun _ => True) ?_ msgs rng 0 [] trivial
    · unfold processedMessages
      rw [hmap]
    · intro rng' k acc _
      simp [buildMap, hai, htool, hhum]

/-- A system message, as the reconciliation may stream one. -/
def systemMessage : Message :=
  { id := "sys-1", type := "system", content := .str "You are an agent.",
    additionalKwargsToolCalls := none, toolCalls := none, toolCallId := none }

/-- Witness for C10: appending a system message to a one-ai-message
store leaves the projection unchanged. -/
theorem projection_only_ai_human_entries_witness :
    processedMessages [aiToolCallMessage, systemMessage] rngR =
      processedMessages [aiToolCallMessage] rngR :=
  projection_only_ai_human_entries.2 [aiToolCallMessage] rngR systemMessage
    (by decide) (by decide) (by decide)

/-! ## Determinism of the projection -/

/-- An ai message whose only tool-call descriptor (delivered through
`additional_kwargs.tool_calls`) has no id, so the projection draws a
fallback id from `Math.random()`. -/
def aiKwargsNoIdMessage : Message :=
  { id := "ai-2", type := "ai", content := .str "hi",
    additionalKwargsToolCalls := some [{ RawTC.empty with name := some "srch" }],
    toolCalls := none, toolCallId := none }

/-- One possible draw of the random-id generator. -/
def rngA : Nat → String := fun _ => "A"

/-- Another possible draw of the random-id generator. -/
def rngB : Nat → String := fun _ => "B"

/-- Counterexample for C1 as stated: on a message whose tool-call
descriptor lacks an id, two runs of the projection (two draws of the
`Math.random()` fallback) yield different outputs — the derived
tool-call view ids differ. -/
theorem projection_determinism_counterexample :
    processedMessages [aiKwargsNoIdMessage] rngA ≠
      processedMessages [aiKwargsNoIdMessage] rngB := by
  intro h
  have h2 : (processedMessages [aiKwargsNoIdMessage] rngA).map
        (fun e => e.toolCalls.map ToolCall.id) =
      (processedMessages [aiKwargsNoIdMessage] rngB).map
        (fun e => e.toolCalls.map ToolCall.id) := by rw [h]
  have hA : (processedMessages [aiKwargsNoIdMessage] rngA).map
      (fun e => e.toolCalls.map ToolCall.id) = [["A"]] := by decide
  have hB : (processedMessages [aiKwargsNoIdMessage] rngB).map
      (fun e => e.toolCalls.map ToolCall.id) = [["B"]] := by decide
  rw [hA, hB] at h2
  exact absurd h2 (by decide)

theorem normalizeAll_all_truthy (raw : List RawTC) :
    ∀ (rng : Nat → String) (k : Nat), (∀ tc ∈ raw, tc.idTruthy = true) →
      normalizeAll raw rng k =
        (raw.map fun tc =>
          { id := tc.id.getD "", name := tc.viewName, args := tc.viewArgs,
            status := "pending", result := none }, k) := by
  induction raw with
  | nil => intro rng k _; rfl
  | cons tc rest ih =>
    intro rng k h
    have htc : tc.idTruthy = true := h tc (List.mem_cons_self _ _)
    have hrest := ih rng k fun t ht => h t (List.mem_cons_of_mem _ ht)
    simp only [normalizeAll, htc, if_true, hrest, List.map_cons]

/-- Every tool-call descriptor any `ai` message of the list yields has a
present, non-empty id — the situation in which the `Math.random()`
fallback is never consulted. -/
def allExtractedIdsTruthy (msgs : List Message) : Bool :=
  msgs.all fun m =>
    !(m.type == "ai") || (extractRawToolCalls m).all RawTC.idTruthy

theorem buildMap_rng_independent (l : List Message) :
    allExtractedIdsTruthy l = true →
    ∀ (r1 r2 : Nat → String) (k1 k2 : Nat) (acc : List (String × Entry)),
      buildMap l r1 k1 acc = buildMap l r2 k2 acc := by
  induction l with
  | nil => intro _ r1 r2 k1 k2 acc; rfl
  | cons m rest ih =>
    intro h r1 r2 k1 k2 acc
    rw [allExtractedIdsTruthy, List.all_cons, Bool.and_eq_true] at h
    have hrest : allExtractedIdsTruthy rest = true := h.2
    by_cases hai : m.type = "ai"
    · have htr : ∀ tc ∈ extractRawToolCalls m, tc.idTruthy = true := by
        have hm := h.1
        rw [hai] at hm
        simp only [beq_self_eq_true, Bool.not_true, Bool.false_or,
          List.all_eq_true] at hm
        exact hm
      have h1 := normalizeAll_all_truthy (extractRawToolCalls m) r1 k1 htr
      have h2 := normalizeAll_all_truthy (extractRawToolCalls m) r2 k2 htr
      simp only [buildMap, hai, if_true, h1, h2]
      exact ih hrest r1 r2 k1 k2 _
    · by_cases htool : m.type = "tool"
      · cases hcid : m.toolCallId with
        | none =>
          simp only [buildMap, hai, if_false, htool, if_true, hcid]
          exact ih hrest r1 r2 k1 k2 acc
        | some cid =>
          by_cases hemp : cid = ""
          · simp only [buildMap, hai, if_false, htool, if_true, hcid, hemp,
              if_true]
            exact ih hrest r1 r2 k1 k2 acc
          · simp only [buildMap, hai, if_false, htool, if_true, hcid, hemp,
              if_false]
            exact ih hrest r1 r2 k1 k2 _
      · by_cases hhum : m.type = "human"
        · simp only [buildMap, hai, if_false, htool, if_false, hhum, if_true]
          exact ih hrest r1 r2 k1 k2 _
        · simp only [buildMap, hai, if_false, htool, if_false, hhum, if_false]
          exact ih hrest r1 r2 k1 k2 acc

/-- C1 (amended): the tool-call projection is deterministic on every
message sequence in which each extracted tool-call descriptor carries a
present, non-empty id; on such sequences the `Math.random()` id fallback
is never consulted and two runs yield identical output, with the ids,
names, args, statuses and results of all derived views included. -/
theorem projection_deterministic_when_ids_present (msgs : List Message)
    (h : allExtractedIdsTruthy msgs = true) (r1 r2 : Nat → String) :
    processedMessages msgs r1 = processedMessages msgs r2 := by
  unfold processedMessages
  rw [buildMap_rng_independent msgs h r1 r2 0 0 []]

/-- Witness for the amended C1: a projection over a message whose tool
call has an explicit id is unchanged under two different generator
draws. -/
theorem projection_deterministic_when_ids_present_witness :
    processedMessages [aiToolCallMessage] rngA =
      processedMessages [aiToolCallMessage] rngB :=
  projection_deterministic_when_ids_present [aiToolCallMessage] (by decide)
    rngA rngB

/-! ## Tool-call extraction and normalization -/

/-- JavaScript truthiness of an optional string field. -/
def strTruthy (o : Option String) : Bool :=
  match o with
  | some s => s ≠ ""
  | none => false

/-- JavaScript truthiness of an optional value field. -/
def jvOptTruthy (o : Option JVal) : Bool :=
  match o with
  | some v => v.truthy
  | none => false

/-- The claim's source-selection rule, as the specification words it:
check provider kwargs, then the structured tool-call list, then the
`tool_use` content blocks, and use the FIRST NON-EMPTY source. (Kept
for comparison with `extractRawToolCalls`, which instead uses the first
source that is present as an array, even when empty.) -/
def specSelectNonEmpty (m : Message) : List RawTC :=
  let kw := m.additionalKwargsToolCalls.getD []
  let stl := m.toolCalls.getD []
  let blocks :=
    match m.content with
    | .str _ => []
    | .blocks items =>
      items.filterMap fun it =>
        match it with
        | .cstr _ => none
        | .cobj o => if o.type = some "tool_use" then some o else none
  if kw.isEmpty then (if stl.isEmpty then blocks else stl) else kw

/-- An ai message whose kwargs tool-call field is the EMPTY array while
its structured tool-call list is non-empty. -/
def emptyKwargsMessage : Message :=
  { id := "ai-3", type := "ai", content := .str "",
    additionalKwargsToolCalls := some [],
    toolCalls := some [sampleRawToolCall],
    toolCallId := none }

/-- Counterexample for C4 as stated: with an empty kwargs array and a
non-empty structured list, the projection derives no tool-call views at
all, while the claim's first-non-empty-source rule would produce the
structured entry. The empty kwargs array is truthy in JavaScript and
shadows the later sources. -/
theorem toolcall_source_selection_counterexample :
    (processedMessages [emptyKwargsMessage] rngR).map
        (fun e => e.toolCalls.map ToolCall.name) ≠
      [(specSelectNonEmpty emptyKwargsMessage).map RawTC.viewName] := by
  intro h
  have hL : (processedMessages [emptyKwargsMessage] rngR).map
      (fun e => e.toolCalls.map ToolCall.name) = [[]] := rfl
  have hR : [(specSelectNonEmpty emptyKwargsMessage).map RawTC.viewName] =
      [["search"]] := rfl
  rw [hL, hR] at h
  exact absurd h (by decide)

theorem normalizeAll_name_args (raw : List RawTC) (rng : Nat → String) :
    ∀ k : Nat, (normalizeAll raw rng k).1.map (fun v => (v.name, v.args)) =
      raw.map fun tc => (tc.viewName, tc.viewArgs) := by
  induction raw with
  | nil => intro k; rfl
  | cons tc rest ih =>
    intro k
    by_cases h : tc.idTruthy = true
    · rcases hn : normalizeAll rest rng k with ⟨tl, k2⟩
      have htl := ih k
      rw [hn] at htl
      simp only [normalizeAll, h, if_true, hn, List.map_cons]
      exact congrArg (List.cons _) htl
    · have h' : tc.idTruthy = false := by
        cases hh : tc.idTruthy
        · rfl
        · exact absurd hh h
      rcases hn : normalizeAll rest rng (k + 1) with ⟨tl, k2⟩
      have htl := ih (k + 1)
      rw [hn] at htl
      simp only [normalizeAll, h', Bool.false_eq_true, if_false, hn,
        List.map_cons]
      exact congrArg (List.cons _) htl

/-- C4 (amended): for every `ai` message, tool-call descriptors are
extracted by checking the three shapes in the fixed precedence order
provider kwargs → structured tool-call list → inline `tool_use` content
blocks, using the first source that is PRESENT as an array even when it
is empty (in the structured-list case, entries whose name is the empty
string are dropped); each descriptor is normalized to a view whose
`name` falls back through the chain function-qualified name → top-level
name → block type → `"unknown"` and whose `args` falls back through
function arguments → `args` → `input` → the empty mapping. -/
theorem toolcall_extraction_normalization :
    (∀ (m : Message) (l : List RawTC) (rng : Nat → String) (k : Nat),
      m.type = "ai" → m.additionalKwargsToolCalls = some l →
        (normalizeAll (extractRawToolCalls m) rng k).1.map
            (fun v => (v.name, v.args)) =
          l.map fun tc => (tc.viewName, tc.viewArgs)) ∧
    (∀ (m : Message) (l : List RawTC) (rng : Nat → String) (k : Nat),
      m.type = "ai" → m.additionalKwargsToolCalls = none → m.toolCalls = some l →
        (normalizeAll (extractRawToolCalls m) rng k).1.map
            (fun v => (v.name, v.args)) =
          (l.filter fun tc => tc.name ≠ some "").map
            fun tc => (tc.viewName, tc.viewArgs)) ∧
    (∀ (m : Message) (items : List CItem) (rng : Nat → String) (k : Nat),
      m.type = "ai" → m.additionalKwargsToolCalls = none → m.toolCalls = none →
      m.content = .blocks items →
        (normalizeAll (extractRawToolCalls m) rng k).1.map
            (fun v => (v.name, v.args)) =
          (items.filterMap fun it =>
            match it with
            | .cstr _ => none
            | .cobj o => if o.type = some "tool_use" then some o else none).map
            fun tc => (tc.viewName, tc.viewArgs)) ∧
    (∀ (tc : RawTC) (s : String),
      tc.function.bind FnPart.name = some s → s ≠ "" → tc.viewName = s) ∧
    (∀ (tc : RawTC) (s : String),
      strTruthy (tc.function.bind FnPart.name) = false →
      tc.name = some s → s ≠ "" → tc.viewName = s) ∧
    (∀ (tc : RawTC) (s : String),
      strTruthy (tc.function.bind FnPart.name) = false →
      strTruthy tc.name = false → tc.type = some s → s ≠ "" →
        tc.viewName = s) ∧
    (∀ tc : RawTC,
      strTruthy (tc.function.bind FnPart.name) = false →
      strTruthy tc.name = false → strTruthy tc.type = false →
        tc.viewName = "unknown") ∧
    (∀ (tc : RawTC) (v : JVal),
      tc.function.bind FnPart.arguments = some v → v.truthy = true →
        tc.viewArgs = v) ∧
    (∀ tc : RawTC,
      jvOptTruthy (tc.function.bind FnPart.arguments) = false →
      jvOptTruthy tc.args = false → jvOptTruthy tc.input = false →
        tc.viewArgs = .obj []) := by
  refine ⟨?_, ?_, ?_, ?_, ?_, ?_, ?_, ?_, ?_⟩
  · intro m l rng k _ hkw
    rw [extractRawToolCalls, hkw, normalizeAll_name_args]
  · intro m l rng k _ hkw htc
    rw [extractRawToolCalls, hkw, htc, normalizeAll_name_args]
  · intro m items rng k _ hkw htc hct
    rw [extractRawToolCalls, hkw, htc, hct, normalizeAll_name_args]
  · intro tc s hfn hne
    rw [RawTC.viewName, hfn]
    simp [jsOrStr, jsOrStrD, hne]
  · intro tc s hfalsy hname hne
    cases hfn : tc.function.bind FnPart.name with
    | none =>
      rw [RawTC.viewName, hfn, hname]
      simp [jsOrStr, jsOrStrD, hne]
    | some s2 =>
      rw [hfn] at hfalsy
      simp [strTruthy] at hfalsy
      rw [RawTC.viewName, hfn, hname]
      simp [jsOrStr, jsOrStrD, hfalsy, hne]
  · intro tc s hfalsy1 hfalsy2 htype hne
    cases hfn : tc.function.bind FnPart.name with
    | none =>
      cases hn : tc.name with
      | none =>
        rw [RawTC.viewName, hfn, hn, htype]
        simp [jsOrStr, jsOrStrD, hne]
      | some s3 =>
        rw [hn] at hfalsy2
        simp [strTruthy] at hfalsy2
        rw [RawTC.viewName, hfn, hn, htype]
        simp [jsOrStr, jsOrStrD, hfalsy2, hne]
    | some s2 =>
      rw [hfn] at hfalsy1
      simp [strTruthy] at hfalsy1
      cases hn : tc.name with
      | none =>
        rw [RawTC.viewName, hfn, hn, htype]
        simp [jsOrStr, jsOrStrD, hfalsy1, hne]
      | some s3 =>
        rw [hn] at hfalsy2
        simp [strTruthy] at hfalsy2
        rw [RawTC.viewName, hfn, hn, htype]
        simp [jsOrStr, jsOrStrD, hfalsy1, hfalsy2, hne]
  · intro tc hfalsy1 hfalsy2 hfalsy3
    have e1 : ∀ b, jsOrStr (tc.function.bind FnPart.name) b = b := by
      intro b
      cases hfn : tc.function.bind FnPart.name with
      | none => simp [jsOrStr]
      | some s2 =>
        rw [hfn] at hfalsy1
        simp [strTruthy] at hfalsy1
        simp [jsOrStr, hfalsy1]
    have e2 : ∀ b, jsOrStr tc.name b = b := by
      intro b
      cases hn : tc.name with
      | none => simp [jsOrStr]
      | some s3 =>
        rw [hn] at hfalsy2
        simp [strTruthy] at hfalsy2
        simp [jsOrStr, hfalsy2]
    rw [RawTC.viewName, e1, e2]
    cases ht : tc.type with
    | none => rfl
    | some s4 =>
      rw [ht] at hfalsy3
      simp [strTruthy] at hfalsy3
      simp [jsOrStrD, hfalsy3]
  · intro tc v hargs htr
    rw [RawTC.viewArgs, hargs]
    simp [jsOrJVal, jsOrJValD, htr]
  · intro tc hfalsy1 hfalsy2 hfalsy3
    have e1 : ∀ b, jsOrJVal (tc.function.bind FnPart.arguments) b = b := by
      intro b
      cases hfn : tc.function.bind FnPart.arguments with
      | none => simp [jsOrJVal]
      | some v =>
        rw [hfn] at hfalsy1
        simp [jvOptTruthy] at hfalsy1
        simp [jsOrJVal, hfalsy1]
    have e2 : ∀ b, jsOrJVal tc.args b = b := by
      intro b
      cases ha : tc.args with
      | none => simp [jsOrJVal]
      | some v =>
        rw [ha] at hfalsy2
        simp [jvOptTruthy] at hfalsy2
        simp [jsOrJVal, hfalsy2]
    rw [RawTC.viewArgs, e1, e2]
    cases hi : tc.input with
    | none => rfl
    | some v =>
      rw [hi] at hfalsy3
      simp [jvOptTruthy] at hfalsy3
      simp [jsOrJValD, hfalsy3]

/-- An ai message delivering one descriptor through the provider kwargs. -/
def kwargsToolCallMessage : Message :=
  { id := "ai-4", type := "ai", content := .str "",
    additionalKwargsToolCalls := some [sampleRawToolCall],
    toolCalls := none, toolCallId := none }

/-- Witness for the amended C4: the kwargs source is selected and its
descriptor normalized through the name/args chains. -/
theorem toolcall_extraction_normalization_witness :
    (normalizeAll (extractRawToolCalls kwargsToolCallMessage) rngR 0).1.map
        (fun v => (v.name, v.args)) =
      [sampleRawToolCall].map (fun tc => (tc.viewName, tc.viewArgs)) :=
  toolcall_extraction_normalization.1 kwargsToolCallMessage [sampleRawToolCall]
    rngR 0 rfl rfl

end DeepAgentsUI
